import Mathlib

/-!
Shallow embedding of the drone-recon-ng importer (main.go).

The embedded core is the reconciliation pass of `main`: incoming
recon-ng host records are matched by exact string equality of their
address against the exported lair project's hosts; matches append the
hostname and mark the host, unmatched non-empty addresses are collected
in a ledger (a Go map keyed by address); the output host list copies
every (merged) current host with its tag list forced to the configured
tags, and, when force-hosts is set, appends one synthesized host per
ledger key.  The netblock and contact mappers are 1:1 transforms.

The ledger is modelled as an association list in key-insertion order;
because Go map iteration order is unspecified, the iteration order used
by the force-hosts loop is an explicit parameter `ord` (intended to be
a permutation of the ledger's keys).
-/

/-- Tool identifier constant from the source (`tool = "recon-ng"`). -/
def tool : String := "recon-ng"

/-- Incoming host record parsed from the recon-ng report
    (reconng.Host: IPAddress, Name). -/
structure ReconHost where
  ipAddress : String
  name : String
deriving DecidableEq, Repr

/-- Host entity of a lair project (lair.Host), with the fields the
    importer reads or writes; fields the code only passes through are
    kept opaque as strings / booleans / naturals. -/
structure LairHost where
  ipv4 : String
  longIPv4Addr : Nat
  isFlagged : Bool
  lastModifiedBy : String
  mac : String
  os : String
  status : String
  statusMessage : String
  tags : List String
  hostnames : List String
deriving DecidableEq, Repr

/-- Incoming network-block record (reconng.NetBlock). -/
structure ReconNetBlock where
  netblock : String
  orgHandle : String
  email : String
deriving DecidableEq, Repr

/-- NetBlock entity of a lair project (lair.Netblock fields set by the code). -/
structure LairNetblock where
  projectID : String
  miscEmails : String
  cidr : String
  handle : String
deriving DecidableEq, Repr

/-- Incoming contact record (reconng.Contact). -/
structure ReconContact where
  email : String
  firstName : String
  middleName : String
  lastName : String
  region : String
  title : String
deriving DecidableEq, Repr

/-- Person entity of a lair project (lair.Person fields set by the code). -/
structure LairPerson where
  projectID : String
  principalName : String
  firstName : String
  middleName : String
  lastName : String
  emails : List String
  address : String
  department : String
deriving DecidableEq, Repr

/-- The inner loop of the reconciliation pass: one incoming record is
    scanned against the (current state of the) exported host list,
    threading the tag-set guard, and returning the updated host list,
    the updated tag set, and the `found` flag.  Mirrors main.go lines
    129-143. -/
def scanHosts (hostTags : List String) (result : ReconHost) :
    List LairHost → List String → List LairHost × List String × Bool
  | [], tagSet => ([], tagSet, false)
  | h :: rest, tagSet =>
    if result.ipAddress = h.ipv4 then
      if h.ipv4 ∈ tagSet then
        let s := scanHosts hostTags result rest tagSet
        ({ h with hostnames := h.hostnames ++ [result.name],
                  lastModifiedBy := tool } :: s.1, s.2.1, true)
      else
        let s := scanHosts hostTags result rest (h.ipv4 :: tagSet)
        ({ h with hostnames := h.hostnames ++ [result.name],
                  lastModifiedBy := tool,
                  tags := h.tags ++ hostTags } :: s.1, s.2.1, true)
    else
      let s := scanHosts hostTags result rest tagSet
      (h :: s.1, s.2.1, s.2.2)

/-- Adding one record to the unmatched ledger under its address key
    (`rNotFound[ip] = append(rNotFound[ip], result)`), modelled on an
    association list in key-insertion order. -/
def ledgerAdd : List (String × List ReconHost) → String → ReconHost →
    List (String × List ReconHost)
  | [], key, r => [(key, [r])]
  | (k, rs) :: rest, key, r =>
    if key = k then (k, rs ++ [r]) :: rest
    else (k, rs) :: ledgerAdd rest key r

/-- The keys of the unmatched ledger, in insertion order. -/
def ledgerKeys (ledger : List (String × List ReconHost)) : List String :=
  ledger.map Prod.fst

/-- The hostnames recorded in the ledger under one key, in arrival
    order (the inner loop of the force-hosts branch, main.go 164-168). -/
def ledgerNames : List (String × List ReconHost) → String → List String
  | [], _ => []
  | (k, rs) :: rest, key =>
    if k = key then rs.map (fun r => r.name) else ledgerNames rest key

/-- The outer loop of the reconciliation pass over all incoming records
    (main.go lines 128-146): scan each record, then record it in the
    ledger when it was not found and its address is non-empty. -/
def mergePass (hostTags : List String) :
    List ReconHost → List LairHost → List String →
    List (String × List ReconHost) →
    List LairHost × List (String × List ReconHost)
  | [], hosts, _, ledger => (hosts, ledger)
  | result :: rest, hosts, tagSet, ledger =>
    let s := scanHosts hostTags result hosts tagSet
    mergePass hostTags rest s.1 s.2.1
      (if s.2.2 = false ∧ result.ipAddress ≠ "" then
        ledgerAdd ledger result.ipAddress result
      else ledger)

/-- The copy loop entry (main.go lines 148-161): every merged current
    host is copied into the output with its tag list replaced by the
    configured tags. -/
def copyHost (hostTags : List String) (h : LairHost) : LairHost :=
  { ipv4 := h.ipv4
    longIPv4Addr := h.longIPv4Addr
    isFlagged := h.isFlagged
    lastModifiedBy := h.lastModifiedBy
    mac := h.mac
    os := h.os
    status := h.status
    statusMessage := h.statusMessage
    tags := hostTags
    hostnames := h.hostnames }

/-- The Go zero value of a lair.Host. -/
def emptyHost : LairHost :=
  { ipv4 := "", longIPv4Addr := 0, isFlagged := false, lastModifiedBy := ""
    mac := "", os := "", status := "", statusMessage := ""
    tags := [], hostnames := [] }

/-- A host synthesized from one ledger key in the force-hosts branch
    (main.go lines 163-174): only IPv4 and Hostnames are set. -/
def forcedHost (ledger : List (String × List ReconHost)) (key : String) :
    LairHost :=
  { emptyHost with ipv4 := key, hostnames := ledgerNames ledger key }

/-- The observable result of one reconciliation pass: the exported
    snapshot's host list as it stands after the pass (the code mutates
    `exproject.Hosts` in place), the unmatched ledger, and the output
    host list of the project to import. -/
structure ReconOutput where
  snapshotHosts : List LairHost
  ledger : List (String × List ReconHost)
  outHosts : List LairHost
deriving DecidableEq, Repr

/-- The whole reconciliation pass of main.go (lines 128-174) as one
    function.  `ord` is the iteration order of the ledger map used by
    the force-hosts loop; Go leaves that order unspecified, so it is an
    explicit input here. -/
def reconcile (forceHosts : Bool) (hostTags : List String)
    (ord : List String) (incoming : List ReconHost)
    (currentHosts : List LairHost) : ReconOutput :=
  let m := mergePass hostTags incoming currentHosts [] []
  { snapshotHosts := m.1
    ledger := m.2
    outHosts := m.1.map (copyHost hostTags)
      ++ (if forceHosts then (ord.map (forcedHost m.2)) else []) }

/-- The netblock mapper entry (main.go lines 176-183). -/
def mapNetblock (projectID : String) (p : ReconNetBlock) : LairNetblock :=
  { projectID := projectID
    miscEmails := p.email
    cidr := p.netblock
    handle := p.orgHandle }

/-- The contact mapper entry (main.go lines 185-196); the Emails list
    starts empty and gets the single email appended. -/
def mapContact (exprojectID : String) (c : ReconContact) : LairPerson :=
  { projectID := exprojectID
    principalName := c.email
    firstName := c.firstName
    middleName := c.middleName
    lastName := c.lastName
    emails := [] ++ [c.email]
    address := c.region
    department := c.title }

/-- The assembled project document handed to ImportProject. -/
structure LairProject where
  id : String
  toolName : String
  hosts : List LairHost
  netblocks : List LairNetblock
  people : List LairPerson
deriving DecidableEq, Repr

/-- Assembly of the import payload from the reconciliation output and
    the two mappers (main.go lines 121-196).  `lairPID` is the target
    project identifier supplied to the run, `exprojectID` the ID field
    of the exported snapshot; the code uses the former for the project
    and its netblocks and the latter for people. -/
def buildProject (lairPID exprojectID : String) (forceHosts : Bool)
    (hostTags : List String) (ord : List String)
    (recHosts : List ReconHost) (recNetBlocks : List ReconNetBlock)
    (recContacts : List ReconContact) (currentHosts : List LairHost) :
    LairProject :=
  { id := lairPID
    toolName := tool
    hosts := (reconcile forceHosts hostTags ord recHosts currentHosts).outHosts
    netblocks := recNetBlocks.map (mapNetblock lairPID)
    people := recContacts.map (mapContact exprojectID) }

/-! Derived notions used to state the theorems. -/

/-- One record applied to one host the way the inner loop does, with
    the tag-set bookkeeping left out (tags are overwritten by the copy
    loop anyway). -/
def applyMatch (r : ReconHost) (h : LairHost) : LairHost :=
  if r.ipAddress = h.ipv4 then
    { h with hostnames := h.hostnames ++ [r.name], lastModifiedBy := tool }
  else h

/-- All incoming records applied to one host in order. -/
def applyAll : List ReconHost → LairHost → LairHost
  | [], h => h
  | r :: rs, h => applyAll rs (applyMatch r h)

/-- Forgetting the tags field (the copy loop replaces it wholesale). -/
def eraseTags (h : LairHost) : LairHost := { h with tags := [] }

/-- Whether a record's address occurs among the given hosts. -/
def hostFound (r : ReconHost) (hosts : List LairHost) : Bool :=
  hosts.any (fun h => r.ipAddress == h.ipv4)

/-- Whether some incoming record carries the given address. -/
def addrFound (incoming : List ReconHost) (a : String) : Bool :=
  incoming.any (fun r => r.ipAddress == a)

/-- The hostnames of all incoming records carrying the given address,
    in arrival order. -/
def matchedNames (incoming : List ReconHost) (a : String) : List String :=
  (incoming.filter (fun r => r.ipAddress == a)).map (fun r => r.name)

/-! Basic lemmas about the inner scan. -/

theorem scanHosts_length (t : List String) (r : ReconHost) :
    ∀ (hosts : List LairHost) (ts : List String),
      (scanHosts t r hosts ts).1.length = hosts.length := by
  intro hosts
  induction hosts with
  | nil => intro ts; rfl
  | cons h rest ih =>
    intro ts
    by_cases hc : r.ipAddress = h.ipv4
    · by_cases hts : h.ipv4 ∈ ts
      · simp [scanHosts, hc, hts, ih]
      · simp [scanHosts, hc, hts, ih]
    · simp [scanHosts, hc, ih]

theorem eraseTags_applyMatch (r : ReconHost) (h : LairHost) :
    eraseTags (applyMatch r h) = applyMatch r (eraseTags h) := by
  by_cases hc : r.ipAddress = h.ipv4
  · simp [applyMatch, eraseTags, hc]
  · simp [applyMatch, eraseTags, hc]

theorem eraseTags_applyAll (rs : List ReconHost) :
    ∀ h : LairHost, eraseTags (applyAll rs h) = applyAll rs (eraseTags h) := by
  induction rs with
  | nil => intro h; rfl
  | cons r rs ih =>
    intro h
    simp [applyAll, ih, eraseTags_applyMatch]

theorem scanHosts_eraseTags (t : List String) (r : ReconHost) :
    ∀ (hosts : List LairHost) (ts : List String),
      (scanHosts t r hosts ts).1.map eraseTags
        = hosts.map (fun h => eraseTags (applyMatch r h)) := by
  intro hosts
  induction hosts with
  | nil => intro ts; rfl
  | cons h rest ih =>
    intro ts
    by_cases hc : r.ipAddress = h.ipv4
    · by_cases hts : h.ipv4 ∈ ts
      · simp [scanHosts, hc, hts, ih, eraseTags, applyMatch]
      · simp [scanHosts, hc, hts, ih, eraseTags, applyMatch]
    · simp [scanHosts, hc, ih, applyMatch]

theorem scanHosts_ipv4 (t : List String) (r : ReconHost) :
    ∀ (hosts : List LairHost) (ts : List String),
      (scanHosts t r hosts ts).1.map (fun h => h.ipv4)
        = hosts.map (fun h => h.ipv4) := by
  intro hosts
  induction hosts with
  | nil => intro ts; rfl
  | cons h rest ih =>
    intro ts
    by_cases hc : r.ipAddress = h.ipv4
    · by_cases hts : h.ipv4 ∈ ts
      · simp [scanHosts, hc, hts, ih]
      · simp [scanHosts, hc, hts, ih]
    · simp [scanHosts, hc, ih]

theorem scanHosts_found (t : List String) (r : ReconHost) :
    ∀ (hosts : List LairHost) (ts : List String),
      (scanHosts t r hosts ts).2.2 = hostFound r hosts := by
  intro hosts
  induction hosts with
  | nil => intro ts; rfl
  | cons h rest ih =>
    intro ts
    by_cases hc : r.ipAddress = h.ipv4
    · by_cases hts : h.ipv4 ∈ ts
      · simp [scanHosts, hc, hts, hostFound]
      · simp [scanHosts, hc, hts, hostFound]
    · simp [scanHosts, hc, ih, hostFound]

theorem scanHosts_nomatch (t : List String) (r : ReconHost) :
    ∀ (hosts : List LairHost) (ts : List String),
      (∀ h ∈ hosts, r.ipAddress ≠ h.ipv4) →
      scanHosts t r hosts ts = (hosts, ts, false) := by
  intro hosts
  induction hosts with
  | nil => intro ts _; rfl
  | cons h rest ih =>
    intro ts hno
    have hc : r.ipAddress ≠ h.ipv4 := hno h (List.mem_cons_self h rest)
    have hrest : ∀ h2 ∈ rest, r.ipAddress ≠ h2.ipv4 := by
      intro h2 hm; exact hno h2 (List.mem_cons_of_mem h hm)
    simp [scanHosts, hc, ih ts hrest]

theorem scanHosts_frame (t : List String) (r : ReconHost) :
    ∀ (hosts : List LairHost) (ts : List String) (i : Nat)
      (hi : i < hosts.length)
      (hs : i < (scanHosts t r hosts ts).1.length),
      r.ipAddress ≠ (hosts.get ⟨i, hi⟩).ipv4 →
      (scanHosts t r hosts ts).1.get ⟨i, hs⟩ = hosts.get ⟨i, hi⟩ := by
  intro hosts
  induction hosts with
  | nil => intro ts i hi; exact absurd hi (Nat.not_lt_zero i)
  | cons h rest ih =>
    intro ts i hi hs hne
    by_cases hc : r.ipAddress = h.ipv4
    · by_cases hts : h.ipv4 ∈ ts
      · cases i with
        | zero => exact absurd hc hne
        | succ n =>
          have hn : n < rest.length := Nat.lt_of_succ_lt_succ hi
          have hn2 : n < (scanHosts t r rest ts).1.length := by
            rw [scanHosts_length]; exact hn
          have := ih ts n hn hn2 hne
          simpa [scanHosts, hc, hts] using this
      · cases i with
        | zero => exact absurd hc hne
        | succ n =>
          have hn : n < rest.length := Nat.lt_of_succ_lt_succ hi
          have hn2 : n < (scanHosts t r rest (h.ipv4 :: ts)).1.length := by
            rw [scanHosts_length]; exact hn
          have := ih (h.ipv4 :: ts) n hn hn2 hne
          simpa [scanHosts, hc, hts] using this
    · cases i with
      | zero => simp [scanHosts, hc]
      | succ n =>
        have hn : n < rest.length := Nat.lt_of_succ_lt_succ hi
        have hn2 : n < (scanHosts t r rest ts).1.length := by
          rw [scanHosts_length]; exact hn
        have := ih ts n hn hn2 hne
        simpa [scanHosts, hc] using this

theorem applyMatch_ipv4 (r : ReconHost) (h : LairHost) :
    (applyMatch r h).ipv4 = h.ipv4 := by
  by_cases hc : r.ipAddress = h.ipv4 <;> simp [applyMatch, hc]

theorem applyAll_ipv4 : ∀ (inc : List ReconHost) (h : LairHost),
    (applyAll inc h).ipv4 = h.ipv4 := by
  intro inc
  induction inc with
  | nil => intro h; rfl
  | cons r rs ih => intro h; rw [applyAll, ih, applyMatch_ipv4]

theorem mergePass_fst_eraseTags (t : List String) :
    ∀ (inc : List ReconHost) (hosts : List LairHost) (ts : List String)
      (L : List (String × List ReconHost)),
      (mergePass t inc hosts ts L).1.map eraseTags
        = hosts.map (fun h => eraseTags (applyAll inc h)) := by
  intro inc
  induction inc with
  | nil => intro hosts ts L; simp [mergePass, applyAll]
  | cons r rest ih =>
    intro hosts ts L
    have step : mergePass t (r :: rest) hosts ts L
        = mergePass t rest (scanHosts t r hosts ts).1
            (scanHosts t r hosts ts).2.1
            (if (scanHosts t r hosts ts).2.2 = false ∧ r.ipAddress ≠ "" then
              ledgerAdd L r.ipAddress r else L) := rfl
    rw [step, ih]
    have h1 : (fun h => eraseTags (applyAll rest h))
        = (fun h : LairHost => applyAll rest h) ∘ eraseTags := by
      funext h
      show eraseTags (applyAll rest h) = applyAll rest (eraseTags h)
      exact eraseTags_applyAll rest h
    rw [h1, ← List.map_map, scanHosts_eraseTags, List.map_map]
    have h2 : ((fun h : LairHost => applyAll rest h) ∘
        (fun h => eraseTags (applyMatch r h)))
        = (fun h => eraseTags (applyAll (r :: rest) h)) := by
      funext h
      show applyAll rest (eraseTags (applyMatch r h))
        = eraseTags (applyAll rest (applyMatch r h))
      exact (eraseTags_applyAll rest (applyMatch r h)).symm
    rw [h2]

theorem mergePass_length (t : List String) (inc : List ReconHost)
    (hosts : List LairHost) (ts : List String)
    (L : List (String × List ReconHost)) :
    (mergePass t inc hosts ts L).1.length = hosts.length := by
  have := congrArg List.length (mergePass_fst_eraseTags t inc hosts ts L)
  simpa using this

theorem mergePass_ipv4 (t : List String) (inc : List ReconHost)
    (hosts : List LairHost) (ts : List String)
    (L : List (String × List ReconHost)) :
    (mergePass t inc hosts ts L).1.map (fun h => h.ipv4)
      = hosts.map (fun h => h.ipv4) := by
  have h0 := congrArg (List.map (fun h : LairHost => h.ipv4))
    (mergePass_fst_eraseTags t inc hosts ts L)
  rw [List.map_map, List.map_map] at h0
  have e1 : ((fun h : LairHost => h.ipv4) ∘ eraseTags)
      = (fun h : LairHost => h.ipv4) := rfl
  have e2 : ((fun h : LairHost => h.ipv4) ∘
      (fun h => eraseTags (applyAll inc h))) = (fun h : LairHost => h.ipv4) := by
    funext h
    show (eraseTags (applyAll inc h)).ipv4 = h.ipv4
    exact applyAll_ipv4 inc h
  rw [e1, e2] at h0
  exact h0

theorem hostFound_map (r : ReconHost) :
    ∀ hosts : List LairHost,
      hostFound r hosts
        = (hosts.map (fun h => h.ipv4)).any (fun a => r.ipAddress == a) := by
  intro hosts
  induction hosts with
  | nil => rfl
  | cons h rest ih => simp [hostFound] at ih ⊢; simp [ih]

theorem scanHosts_hostFound (t : List String) (r r2 : ReconHost)
    (hosts : List LairHost) (ts : List String) :
    hostFound r2 (scanHosts t r hosts ts).1 = hostFound r2 hosts := by
  rw [hostFound_map, hostFound_map, scanHosts_ipv4]

theorem mergePass_snd (t : List String) :
    ∀ (inc : List ReconHost) (hosts : List LairHost) (ts : List String)
      (L : List (String × List ReconHost)),
      (mergePass t inc hosts ts L).2
        = (inc.filter
            (fun r => !(hostFound r hosts) && !(r.ipAddress == ""))).foldl
              (fun acc r => ledgerAdd acc r.ipAddress r) L := by
  intro inc
  induction inc with
  | nil => intro hosts ts L; rfl
  | cons r rest ih =>
    intro hosts ts L
    have step : mergePass t (r :: rest) hosts ts L
        = mergePass t rest (scanHosts t r hosts ts).1
            (scanHosts t r hosts ts).2.1
            (if (scanHosts t r hosts ts).2.2 = false ∧ r.ipAddress ≠ "" then
              ledgerAdd L r.ipAddress r else L) := rfl
    rw [step, ih]
    have hpred : (fun r2 =>
        !(hostFound r2 (scanHosts t r hosts ts).1) && !(r2.ipAddress == ""))
        = (fun r2 => !(hostFound r2 hosts) && !(r2.ipAddress == "")) := by
      funext r2; rw [scanHosts_hostFound]
    rw [hpred, scanHosts_found]
    by_cases hb : hostFound r hosts
    · simp [hb]
    · by_cases he : r.ipAddress = ""
      · simp [hb, he]
      · simp [hb, he]

theorem applyAll_spec : ∀ (inc : List ReconHost) (h : LairHost),
    applyAll inc h = { h with
      hostnames := h.hostnames ++ matchedNames inc h.ipv4,
      lastModifiedBy :=
        if addrFound inc h.ipv4 then tool else h.lastModifiedBy } := by
  intro inc
  induction inc with
  | nil => intro h; simp [applyAll, matchedNames, addrFound]
  | cons r rs ih =>
    intro h
    by_cases hc : r.ipAddress = h.ipv4
    · show applyAll rs (applyMatch r h) = _
      rw [applyMatch, if_pos hc, ih]
      simp [matchedNames, addrFound, hc, List.filter_cons]
    · show applyAll rs (applyMatch r h) = _
      rw [applyMatch, if_neg hc, ih]
      have hb : (r.ipAddress == h.ipv4) = false := by
        simp [hc]
      simp [matchedNames, addrFound, hb, List.filter_cons]

theorem mergePass_frame (t : List String) :
    ∀ (inc : List ReconHost) (hosts : List LairHost) (ts : List String)
      (L : List (String × List ReconHost)) (i : Nat)
      (hi : i < hosts.length)
      (hs : i < (mergePass t inc hosts ts L).1.length),
      addrFound inc (hosts.get ⟨i, hi⟩).ipv4 = false →
      (mergePass t inc hosts ts L).1.get ⟨i, hs⟩ = hosts.get ⟨i, hi⟩ := by
  intro inc
  induction inc with
  | nil => intro hosts ts L i hi hs _; rfl
  | cons r rest ih =>
    intro hosts ts L i hi hs hno
    have hnr : (r.ipAddress == (hosts.get ⟨i, hi⟩).ipv4) = false := by
      have := hno
      simp [addrFound] at this
      exact beq_eq_false_iff_ne.2 this.1
    have hne : r.ipAddress ≠ (hosts.get ⟨i, hi⟩).ipv4 :=
      beq_eq_false_iff_ne.1 hnr
    have hrest : addrFound rest (hosts.get ⟨i, hi⟩).ipv4 = false := by
      simp [addrFound] at hno ⊢
      exact hno.2
    have hi2 : i < (scanHosts t r hosts ts).1.length := by
      rw [scanHosts_length]; exact hi
    have hscan := scanHosts_frame t r hosts ts i hi hi2 hne
    have step : mergePass t (r :: rest) hosts ts L
        = mergePass t rest (scanHosts t r hosts ts).1
            (scanHosts t r hosts ts).2.1
            (if (scanHosts t r hosts ts).2.2 = false ∧ r.ipAddress ≠ "" then
              ledgerAdd L r.ipAddress r else L) := rfl
    have hs2 : i < (mergePass t rest (scanHosts t r hosts ts).1
        (scanHosts t r hosts ts).2.1
        (if (scanHosts t r hosts ts).2.2 = false ∧ r.ipAddress ≠ "" then
          ledgerAdd L r.ipAddress r else L)).1.length := by
      rw [← step]; exact hs
    have hrest2 : addrFound rest
        ((scanHosts t r hosts ts).1.get ⟨i, hi2⟩).ipv4 = false := by
      rw [hscan]; exact hrest
    have := ih (scanHosts t r hosts ts).1 (scanHosts t r hosts ts).2.1
      (if (scanHosts t r hosts ts).2.2 = false ∧ r.ipAddress ≠ "" then
        ledgerAdd L r.ipAddress r else L) i hi2 hs2 hrest2
    calc (mergePass t (r :: rest) hosts ts L).1.get ⟨i, hs⟩
        = (mergePass t rest (scanHosts t r hosts ts).1
            (scanHosts t r hosts ts).2.1
            (if (scanHosts t r hosts ts).2.2 = false ∧ r.ipAddress ≠ "" then
              ledgerAdd L r.ipAddress r else L)).1.get ⟨i, hs2⟩ := by
          congr 1
      _ = (scanHosts t r hosts ts).1.get ⟨i, hi2⟩ := this
      _ = hosts.get ⟨i, hi⟩ := hscan

/-! Lemmas about the unmatched ledger. -/

theorem ledgerKeys_ledgerAdd (k : String) (r : ReconHost) :
    ∀ L : List (String × List ReconHost),
      ledgerKeys (ledgerAdd L k r)
        = if k ∈ ledgerKeys L then ledgerKeys L else ledgerKeys L ++ [k] := by
  intro L
  induction L with
  | nil => simp [ledgerAdd, ledgerKeys]
  | cons e rest ih =>
    obtain ⟨k2, rs⟩ := e
    by_cases hc : k = k2
    · simp [ledgerAdd, hc, ledgerKeys]
    · have hstep : ledgerAdd ((k2, rs) :: rest) k r
          = (k2, rs) :: ledgerAdd rest k r := by
        simp [ledgerAdd, hc]
      have hkeys : ledgerKeys ((k2, rs) :: ledgerAdd rest k r)
          = k2 :: ledgerKeys (ledgerAdd rest k r) := rfl
      rw [hstep, hkeys, ih]
      by_cases hin : k ∈ ledgerKeys rest
      · have h1 : k ∈ ledgerKeys ((k2, rs) :: rest) := by
          show k ∈ k2 :: ledgerKeys rest
          exact List.mem_cons_of_mem _ hin
        rw [if_pos hin, if_pos h1]
        rfl
      · have h1 : k ∉ ledgerKeys ((k2, rs) :: rest) := by
          show ¬ k ∈ k2 :: ledgerKeys rest
          intro hmem
          rcases List.mem_cons.1 hmem with h | h
          · exact hc h
          · exact hin h
        rw [if_neg hin, if_neg h1]
        rfl

theorem mem_ledgerKeys_ledgerAdd (a k : String) (r : ReconHost)
    (L : List (String × List ReconHost)) :
    a ∈ ledgerKeys (ledgerAdd L k r) ↔ a ∈ ledgerKeys L ∨ a = k := by
  rw [ledgerKeys_ledgerAdd]
  by_cases hin : k ∈ ledgerKeys L
  · simp [hin]
    intro ha
    rw [ha]; exact hin
  · simp [hin]

theorem nodup_ledgerKeys_ledgerAdd (k : String) (r : ReconHost)
    (L : List (String × List ReconHost))
    (hnd : (ledgerKeys L).Nodup) : (ledgerKeys (ledgerAdd L k r)).Nodup := by
  rw [ledgerKeys_ledgerAdd]
  by_cases hin : k ∈ ledgerKeys L
  · simpa [hin] using hnd
  · simp [hin]
    rw [(List.perm_append_singleton k (ledgerKeys L)).nodup_iff]
    rw [List.nodup_cons]
    exact ⟨hin, hnd⟩

theorem ledgerNames_ledgerAdd (a k : String) (r : ReconHost) :
    ∀ L : List (String × List ReconHost),
      ledgerNames (ledgerAdd L k r) a
        = if a = k then ledgerNames L a ++ [r.name] else ledgerNames L a := by
  intro L
  induction L with
  | nil =>
    by_cases hc : a = k
    · simp [ledgerAdd, ledgerNames, hc]
    · have : ¬ k = a := fun h => hc h.symm
      simp [ledgerAdd, ledgerNames, hc, this]
  | cons e rest ih =>
    obtain ⟨k2, rs⟩ := e
    by_cases hc : k = k2
    · by_cases ha : a = k2
      · have hak : a = k := ha.trans hc.symm
        simp [ledgerAdd, hc, ledgerNames, ha, hak]
      · have hak : ¬ a = k := fun h => ha (h.trans hc)
        have h2 : ¬ k2 = a := fun h => ha h.symm
        simp [ledgerAdd, hc, ledgerNames, h2, hak]
        exact (if_neg ha).symm
    · by_cases ha : k2 = a
      · have h3 : ¬ a = k := fun h => hc ((ha.trans h).symm)
        have h4 : ¬ k = a := fun h => hc (h.trans ha.symm)
        simp [ledgerAdd, hc, ledgerNames, ha, h3, h4]
      · simp [ledgerAdd, hc, ledgerNames, ha, ih]

theorem mem_ledgerKeys_foldl (a : String) :
    ∀ (rs : List ReconHost) (L : List (String × List ReconHost)),
      a ∈ ledgerKeys
          (rs.foldl (fun acc r => ledgerAdd acc r.ipAddress r) L)
        ↔ a ∈ ledgerKeys L ∨ ∃ r ∈ rs, r.ipAddress = a := by
  intro rs
  induction rs with
  | nil => intro L; simp
  | cons r rest ih =>
    intro L
    rw [List.foldl_cons, ih, mem_ledgerKeys_ledgerAdd]
    constructor
    · rintro (⟨h | h⟩ | h)
      · exact Or.inl h
      · exact Or.inr ⟨r, List.mem_cons_self r rest, h.symm⟩
      · obtain ⟨r2, hm, he⟩ := h
        exact Or.inr ⟨r2, List.mem_cons_of_mem r hm, he⟩
    · rintro (h | ⟨r2, hm, he⟩)
      · exact Or.inl (Or.inl h)
      · rcases List.mem_cons.1 hm with h2 | h2
        · subst h2; exact Or.inl (Or.inr he.symm)
        · exact Or.inr ⟨r2, h2, he⟩

theorem nodup_ledgerKeys_foldl :
    ∀ (rs : List ReconHost) (L : List (String × List ReconHost)),
      (ledgerKeys L).Nodup →
      (ledgerKeys
        (rs.foldl (fun acc r => ledgerAdd acc r.ipAddress r) L)).Nodup := by
  intro rs
  induction rs with
  | nil => intro L h; exact h
  | cons r rest ih =>
    intro L h
    rw [List.foldl_cons]
    exact ih _ (nodup_ledgerKeys_ledgerAdd r.ipAddress r L h)

theorem ledgerNames_foldl (a : String) :
    ∀ (rs : List ReconHost) (L : List (String × List ReconHost)),
      ledgerNames (rs.foldl (fun acc r => ledgerAdd acc r.ipAddress r) L) a
        = ledgerNames L a ++ matchedNames rs a := by
  intro rs
  induction rs with
  | nil => intro L; simp [matchedNames]
  | cons r rest ih =>
    intro L
    rw [List.foldl_cons, ih, ledgerNames_ledgerAdd]
    by_cases hc : a = r.ipAddress
    · have hb : (r.ipAddress == a) = true := by simp [hc]
      simp [matchedNames, hc, List.filter_cons, hb]
    · have hb : (r.ipAddress == a) = false := by
        simp; exact fun h => hc h.symm
      simp [matchedNames, hc, List.filter_cons, hb]

/-! Reconcile-level characterizations. -/

theorem reconcile_ledger (f : Bool) (t ord : List String)
    (inc : List ReconHost) (cur : List LairHost) :
    (reconcile f t ord inc cur).ledger
      = (inc.filter
          (fun r => !(hostFound r cur) && !(r.ipAddress == ""))).foldl
            (fun acc r => ledgerAdd acc r.ipAddress r) [] := by
  show (mergePass t inc cur [] []).2 = _
  exact mergePass_snd t inc cur [] []

theorem nodup_ledgerKeys_reconcile (f : Bool) (t ord : List String)
    (inc : List ReconHost) (cur : List LairHost) :
    (ledgerKeys (reconcile f t ord inc cur).ledger).Nodup := by
  rw [reconcile_ledger]
  exact nodup_ledgerKeys_foldl _ [] (by simp [ledgerKeys])

theorem mem_ledgerKeys_reconcile (f : Bool) (t ord : List String)
    (inc : List ReconHost) (cur : List LairHost) (a : String) :
    a ∈ ledgerKeys (reconcile f t ord inc cur).ledger
      ↔ a ≠ "" ∧ (∀ h ∈ cur, h.ipv4 ≠ a) ∧ ∃ r ∈ inc, r.ipAddress = a := by
  rw [reconcile_ledger, mem_ledgerKeys_foldl]
  have hnil : a ∈ ledgerKeys ([] : List (String × List ReconHost)) ↔ False := by
    simp [ledgerKeys]
  constructor
  · rintro (h | ⟨r, hr, ha⟩)
    · exact absurd h (hnil.1 · )
    · rw [List.mem_filter] at hr
      obtain ⟨hr1, hr2⟩ := hr
      have hb := hr2
      rw [Bool.and_eq_true, Bool.not_eq_true', Bool.not_eq_true'] at hb
      obtain ⟨hb1, hb2⟩ := hb
      refine ⟨?_, ?_, ⟨r, hr1, ha⟩⟩
      · intro he
        rw [ha, he] at hb2
        simp at hb2
      · intro h hm he
        rw [hostFound] at hb1
        have : (r.ipAddress == h.ipv4) = true := by
          rw [ha, he]; simp
        have hany : cur.any (fun h2 => r.ipAddress == h2.ipv4) = true :=
          List.any_eq_true.2 ⟨h, hm, this⟩
        rw [hany] at hb1
        exact Bool.false_ne_true hb1.symm
  · rintro ⟨hne, hall, r, hr, ha⟩
    refine Or.inr ⟨r, List.mem_filter.2 ⟨hr, ?_⟩, ha⟩
    rw [Bool.and_eq_true, Bool.not_eq_true', Bool.not_eq_true']
    constructor
    · rw [hostFound]
      rw [List.any_eq_false]
      intro h hm
      rw [ha]
      simp
      exact fun he => (hall h hm) he.symm
    · rw [ha]
      simp
      exact hne
  
theorem ledgerNames_reconcile (f : Bool) (t ord : List String)
    (inc : List ReconHost) (cur : List LairHost) (a : String)
    (hmem : a ∈ ledgerKeys (reconcile f t ord inc cur).ledger) :
    ledgerNames (reconcile f t ord inc cur).ledger a = matchedNames inc a := by
  have hchar := (mem_ledgerKeys_reconcile f t ord inc cur a).1 hmem
  obtain ⟨hne, hall, _⟩ := hchar
  rw [reconcile_ledger, ledgerNames_foldl]
  have h0 : ledgerNames ([] : List (String × List ReconHost)) a = [] := rfl
  rw [h0, List.nil_append]
  rw [matchedNames, matchedNames, List.filter_filter]
  congr 1
  apply List.filter_congr
  intro r hr
  by_cases hb : (r.ipAddress == a) = true
  · have ha : r.ipAddress = a := by
      exact beq_iff_eq.1 hb
    have h1 : hostFound r cur = false := by
      rw [hostFound, List.any_eq_false]
      intro h hm
      rw [ha]
      simp
      exact fun he => (hall h hm) he.symm
    have h2 : (r.ipAddress == "") = false := by
      rw [ha]
      simp
      exact hne
    rw [hb, h1, h2]
    rfl
  · rw [Bool.not_eq_true] at hb
    rw [hb]
    simp

theorem copyHost_eraseTags (t : List String) (h : LairHost) :
    copyHost t (eraseTags h) = copyHost t h := rfl

theorem reconcile_outHosts (f : Bool) (t ord : List String)
    (inc : List ReconHost) (cur : List LairHost) :
    (reconcile f t ord inc cur).outHosts
      = cur.map (fun h => copyHost t (applyAll inc h))
        ++ (if f then
              ord.map (forcedHost (reconcile f t ord inc cur).ledger)
            else []) := by
  show (mergePass t inc cur [] []).1.map (copyHost t)
      ++ (if f then ord.map (forcedHost (mergePass t inc cur [] []).2) else [])
    = cur.map (fun h => copyHost t (applyAll inc h))
      ++ (if f then ord.map (forcedHost (mergePass t inc cur [] []).2) else [])
  congr 1
  have h1 : (copyHost t) = (fun h => copyHost t h) ∘ eraseTags := by
    funext h
    show copyHost t h = copyHost t (eraseTags h)
    exact (copyHost_eraseTags t h).symm
  rw [h1, ← List.map_map, mergePass_fst_eraseTags, List.map_map]
  have h2 : ((fun h => copyHost t h) ∘ (fun h => eraseTags (applyAll inc h)))
      = fun h => copyHost t (applyAll inc h) := by
    funext h
    show copyHost t (eraseTags (applyAll inc h)) = copyHost t (applyAll inc h)
    exact copyHost_eraseTags t (applyAll inc h)
  rw [h2]
  have h3 : (fun h => ((fun h => copyHost t h) ∘ eraseTags) (applyAll inc h))
      = fun h : LairHost => copyHost t (applyAll inc h) := by
    funext h
    show copyHost t (eraseTags (applyAll inc h)) = copyHost t (applyAll inc h)
    exact copyHost_eraseTags t (applyAll inc h)
  rw [h3]

theorem copyHost_applyAll (t : List String) (inc : List ReconHost)
    (h : LairHost) :
    copyHost t (applyAll inc h)
      = { ipv4 := h.ipv4
          longIPv4Addr := h.longIPv4Addr
          isFlagged := h.isFlagged
          lastModifiedBy :=
            if addrFound inc h.ipv4 then tool else h.lastModifiedBy
          mac := h.mac
          os := h.os
          status := h.status
          statusMessage := h.statusMessage
          tags := t
          hostnames := h.hostnames ++ matchedNames inc h.ipv4 } := by
  rw [applyAll_spec]
  rfl

theorem reconcile_outHosts_length (f : Bool) (t ord : List String)
    (inc : List ReconHost) (cur : List LairHost) :
    (reconcile f t ord inc cur).outHosts.length
      = cur.length + (if f then ord.length else 0) := by
  rw [reconcile_outHosts, List.length_append, List.length_map]
  congr 1
  cases f
  · simp
  · simp

theorem reconcile_outHosts_get_lt (f : Bool) (t ord : List String)
    (inc : List ReconHost) (cur : List LairHost) (i : Nat)
    (hi : i < cur.length)
    (ho : i < (reconcile f t ord inc cur).outHosts.length) :
    (reconcile f t ord inc cur).outHosts.get ⟨i, ho⟩
      = copyHost t (applyAll inc (cur.get ⟨i, hi⟩)) := by
  rw [List.get_eq_getElem,
    List.getElem_of_eq (reconcile_outHosts f t ord inc cur) ho]
  have hlt : i < (cur.map (fun h => copyHost t (applyAll inc h))).length := by
    simpa using hi
  rw [List.getElem_append_left hlt, List.getElem_map, List.get_eq_getElem]

theorem reconcile_outHosts_get_ge (t ord : List String)
    (inc : List ReconHost) (cur : List LairHost) (j : Nat)
    (hj : j < ord.length)
    (ho : cur.length + j < (reconcile true t ord inc cur).outHosts.length) :
    (reconcile true t ord inc cur).outHosts.get ⟨cur.length + j, ho⟩
      = forcedHost (reconcile true t ord inc cur).ledger
          (ord.get ⟨j, hj⟩) := by
  rw [List.get_eq_getElem,
    List.getElem_of_eq (reconcile_outHosts true t ord inc cur) ho]
  have hlen : (cur.map (fun h => copyHost t (applyAll inc h))).length
      = cur.length := by simp
  have hge : (cur.map (fun h => copyHost t (applyAll inc h))).length
      ≤ cur.length + j := by rw [hlen]; exact Nat.le_add_right _ _
  rw [List.getElem_append_right hge]
  simp [hlen]

theorem reconcile_snapshot_length (f : Bool) (t ord : List String)
    (inc : List ReconHost) (cur : List LairHost) :
    (reconcile f t ord inc cur).snapshotHosts.length = cur.length := by
  show (mergePass t inc cur [] []).1.length = cur.length
  exact mergePass_length t inc cur [] []

theorem reconcile_snapshot_frame (f : Bool) (t ord : List String)
    (inc : List ReconHost) (cur : List LairHost) (i : Nat)
    (hi : i < cur.length)
    (hs : i < (reconcile f t ord inc cur).snapshotHosts.length)
    (hno : addrFound inc (cur.get ⟨i, hi⟩).ipv4 = false) :
    (reconcile f t ord inc cur).snapshotHosts.get ⟨i, hs⟩
      = cur.get ⟨i, hi⟩ := by
  exact mergePass_frame t inc cur [] [] i hi hs hno

theorem reconcile_snapshot_eraseTags (f : Bool) (t ord : List String)
    (inc : List ReconHost) (cur : List LairHost) :
    (reconcile f t ord inc cur).snapshotHosts.map eraseTags
      = cur.map (fun h => eraseTags (applyAll inc h)) := by
  exact mergePass_fst_eraseTags t inc cur [] []

theorem reconcile_snapshot_get (f : Bool) (t ord : List String)
    (inc : List ReconHost) (cur : List LairHost) (i : Nat)
    (hi : i < cur.length)
    (hs : i < (reconcile f t ord inc cur).snapshotHosts.length) :
    eraseTags ((reconcile f t ord inc cur).snapshotHosts.get ⟨i, hs⟩)
      = eraseTags (applyAll inc (cur.get ⟨i, hi⟩)) := by
  have h0 := reconcile_snapshot_eraseTags f t ord inc cur
  have hm1 : i <
      ((reconcile f t ord inc cur).snapshotHosts.map eraseTags).length := by
    simpa using hs
  have h1 := List.getElem_of_eq h0 hm1
  rw [List.getElem_map] at h1
  rw [List.get_eq_getElem, List.get_eq_getElem, h1, List.getElem_map]

theorem reconcile_snapshot_hostnames (f : Bool) (t ord : List String)
    (inc : List ReconHost) (cur : List LairHost) (i : Nat)
    (hi : i < cur.length)
    (hs : i < (reconcile f t ord inc cur).snapshotHosts.length) :
    ((reconcile f t ord inc cur).snapshotHosts.get ⟨i, hs⟩).hostnames
      = (cur.get ⟨i, hi⟩).hostnames
        ++ matchedNames inc (cur.get ⟨i, hi⟩).ipv4 := by
  have h := congrArg LairHost.hostnames
    (reconcile_snapshot_get f t ord inc cur i hi hs)
  rw [applyAll_spec] at h
  simpa [eraseTags] using h

theorem reconcile_snapshot_lmb (f : Bool) (t ord : List String)
    (inc : List ReconHost) (cur : List LairHost) (i : Nat)
    (hi : i < cur.length)
    (hs : i < (reconcile f t ord inc cur).snapshotHosts.length) :
    ((reconcile f t ord inc cur).snapshotHosts.get ⟨i, hs⟩).lastModifiedBy
      = (if addrFound inc (cur.get ⟨i, hi⟩).ipv4 then tool
         else (cur.get ⟨i, hi⟩).lastModifiedBy) := by
  have h := congrArg LairHost.lastModifiedBy
    (reconcile_snapshot_get f t ord inc cur i hi hs)
  rw [applyAll_spec] at h
  simpa [eraseTags] using h

/-! Helper for reconciling with empty-address records dropped. -/

theorem mergePass_filter_empty (t : List String) :
    ∀ (inc : List ReconHost) (hosts : List LairHost) (ts : List String)
      (L : List (String × List ReconHost)),
      (∀ h ∈ hosts, h.ipv4 ≠ "") →
      mergePass t inc hosts ts L
        = mergePass t (inc.filter (fun r => !(r.ipAddress == ""))) hosts ts L := by
  intro inc
  induction inc with
  | nil => intro hosts ts L _; rfl
  | cons r rest ih =>
    intro hosts ts L hne
    by_cases he : r.ipAddress = ""
    · have hno : ∀ h ∈ hosts, r.ipAddress ≠ h.ipv4 := by
        intro h hm heq
        exact hne h hm (heq.symm.trans he)
      have hscan := scanHosts_nomatch t r hosts ts hno
      have hfilter : (r :: rest).filter (fun r => !(r.ipAddress == ""))
          = rest.filter (fun r => !(r.ipAddress == "")) := by
        simp [List.filter_cons, he]
      rw [hfilter]
      have step : mergePass t (r :: rest) hosts ts L
          = mergePass t rest (scanHosts t r hosts ts).1
              (scanHosts t r hosts ts).2.1
              (if (scanHosts t r hosts ts).2.2 = false ∧ r.ipAddress ≠ "" then
                ledgerAdd L r.ipAddress r else L) := rfl
      rw [step, hscan]
      have hcond : ¬(((hosts, ts, false) :
          List LairHost × List String × Bool).2.2 = false
            ∧ r.ipAddress ≠ "") := by
        intro hca; exact hca.2 he
      rw [if_neg hcond]
      exact ih hosts ts L hne
    · have hfilter : (r :: rest).filter (fun r => !(r.ipAddress == ""))
          = r :: rest.filter (fun r => !(r.ipAddress == "")) := by
        simp [List.filter_cons, he]
      rw [hfilter]
      have hne2 : ∀ h ∈ (scanHosts t r hosts ts).1, h.ipv4 ≠ "" := by
        intro h hm
        have hmap := scanHosts_ipv4 t r hosts ts
        have hmem : h.ipv4 ∈ (scanHosts t r hosts ts).1.map
            (fun h => h.ipv4) := List.mem_map.2 ⟨h, hm, rfl⟩
        rw [hmap] at hmem
        obtain ⟨h0, hm0, he0⟩ := List.mem_map.1 hmem
        rw [← he0]
        exact hne h0 hm0
      show mergePass t rest (scanHosts t r hosts ts).1
          (scanHosts t r hosts ts).2.1 _
        = mergePass t (rest.filter (fun r => !(r.ipAddress == "")))
            (scanHosts t r hosts ts).1 (scanHosts t r hosts ts).2.1 _
      exact ih _ _ _ hne2

theorem reconcile_filter_empty (f : Bool) (t ord : List String)
    (inc : List ReconHost) (cur : List LairHost)
    (hcur : ∀ h ∈ cur, h.ipv4 ≠ "") :
    reconcile f t ord inc cur
      = reconcile f t ord (inc.filter (fun r => !(r.ipAddress == ""))) cur := by
  have h := mergePass_filter_empty t inc cur [] [] hcur
  simp only [reconcile]
  rw [h]

/-! Claim theorems. -/

/-- C1: for every pair of input sequences, the merged host list has
    exactly one entry per current host, in order, with its non-tag
    attributes passed through from the reconciled snapshot (the
    last-modified-by marker carrying the tool identifier exactly on
    matched hosts), plus, exactly when force-unmatched is enabled, one
    synthesized entry per distinct unmatched address; no other hosts
    appear.  The ledger keys are exactly the distinct non-empty
    unmatched incoming addresses. -/
theorem c1_output_shape (f : Bool) (t ord : List String)
    (inc : List ReconHost) (cur : List LairHost)
    (hord : List.Perm ord (ledgerKeys (reconcile f t ord inc cur).ledger)) :
    (reconcile f t ord inc cur).outHosts
        = cur.map (fun h =>
            { ipv4 := h.ipv4
              longIPv4Addr := h.longIPv4Addr
              isFlagged := h.isFlagged
              lastModifiedBy :=
                if addrFound inc h.ipv4 then tool else h.lastModifiedBy
              mac := h.mac
              os := h.os
              status := h.status
              statusMessage := h.statusMessage
              tags := t
              hostnames := h.hostnames ++ matchedNames inc h.ipv4 })
          ++ (if f then
                ord.map (forcedHost (reconcile f t ord inc cur).ledger)
              else []) ∧
    (reconcile f t ord inc cur).outHosts.length
        = cur.length
          + (if f then (ledgerKeys (reconcile f t ord inc cur).ledger).length
             else 0) ∧
    (ledgerKeys (reconcile f t ord inc cur).ledger).Nodup ∧
    (∀ a, a ∈ ledgerKeys (reconcile f t ord inc cur).ledger ↔
        a ≠ "" ∧ (∀ h ∈ cur, h.ipv4 ≠ a) ∧ ∃ r ∈ inc, r.ipAddress = a) := by
  refine ⟨?_, ?_, nodup_ledgerKeys_reconcile f t ord inc cur,
    fun a => mem_ledgerKeys_reconcile f t ord inc cur a⟩
  · rw [reconcile_outHosts]
    congr 1
    have he : (fun h => copyHost t (applyAll inc h))
        = fun h : LairHost =>
            ({ ipv4 := h.ipv4
               longIPv4Addr := h.longIPv4Addr
               isFlagged := h.isFlagged
               lastModifiedBy :=
                 if addrFound inc h.ipv4 then tool else h.lastModifiedBy
               mac := h.mac
               os := h.os
               status := h.status
               statusMessage := h.statusMessage
               tags := t
               hostnames := h.hostnames ++ matchedNames inc h.ipv4 }
              : LairHost) := by
      funext h
      exact copyHost_applyAll t inc h
    rw [he]
  · rw [reconcile_outHosts_length]
    congr 1
    cases f
    · simp
    · simp [hord.length_eq]

/-- C1 witness: the spec's example scenario, one matched host and one
    forced unmatched address, yields two output hosts. -/
theorem c1_output_shape_witness :
    (reconcile true ["scan"] ["10.0.0.9"]
      [ReconHost.mk "10.0.0.5" "new", ReconHost.mk "10.0.0.9" "orphan"]
      [LairHost.mk "10.0.0.5" 0 false "" "" "" "" "" [] ["old"]]
      ).outHosts.length = 2 := by
  have h := c1_output_shape true ["scan"] ["10.0.0.9"]
    [ReconHost.mk "10.0.0.5" "new", ReconHost.mk "10.0.0.9" "orphan"]
    [LairHost.mk "10.0.0.5" 0 false "" "" "" "" "" [] ["old"]] (by decide)
  exact h.2.1

/-- C2: an incoming record with a non-empty address equal to a current
    host's address leaves that host's merged output entry with the
    hostname appended (all matching hostnames, in order, no
    deduplication), the last-modified-by marker set to the tool
    identifier, and its address absent from the unmatched ledger. -/
theorem c2_match_updates (f : Bool) (t ord : List String)
    (inc : List ReconHost) (cur : List LairHost) (k i : Nat)
    (hk : k < inc.length) (hi : i < cur.length)
    (hne : (inc.get ⟨k, hk⟩).ipAddress ≠ "")
    (hm : (inc.get ⟨k, hk⟩).ipAddress = (cur.get ⟨i, hi⟩).ipv4)
    (ho : i < (reconcile f t ord inc cur).outHosts.length) :
    ((reconcile f t ord inc cur).outHosts.get ⟨i, ho⟩).hostnames
        = (cur.get ⟨i, hi⟩).hostnames
          ++ matchedNames inc (cur.get ⟨i, hi⟩).ipv4 ∧
    (inc.get ⟨k, hk⟩).name
        ∈ ((reconcile f t ord inc cur).outHosts.get ⟨i, ho⟩).hostnames ∧
    ((reconcile f t ord inc cur).outHosts.get ⟨i, ho⟩).lastModifiedBy
        = tool ∧
    (∀ e ∈ (reconcile f t ord inc cur).ledger,
      e.1 ≠ (inc.get ⟨k, hk⟩).ipAddress) := by
  have hget := reconcile_outHosts_get_lt f t ord inc cur i hi ho
  have hfound : addrFound inc (cur.get ⟨i, hi⟩).ipv4 = true := by
    rw [addrFound, List.any_eq_true]
    refine ⟨inc.get ⟨k, hk⟩, List.get_mem inc k hk, ?_⟩
    rw [hm]
    simp
  rw [hget, copyHost_applyAll]
  refine ⟨rfl, ?_, ?_, ?_⟩
  · show (inc.get ⟨k, hk⟩).name
        ∈ (cur.get ⟨i, hi⟩).hostnames
          ++ matchedNames inc (cur.get ⟨i, hi⟩).ipv4
    apply List.mem_append_right
    rw [matchedNames]
    apply List.mem_map.2
    refine ⟨inc.get ⟨k, hk⟩, ?_, rfl⟩
    apply List.mem_filter.2
    refine ⟨List.get_mem inc k hk, ?_⟩
    rw [hm]
    simp
  · show (if addrFound inc (cur.get ⟨i, hi⟩).ipv4 then tool
        else (cur.get ⟨i, hi⟩).lastModifiedBy) = tool
    rw [hfound]
    rfl
  · intro e he hcontra
    have hkey : e.1 ∈ ledgerKeys (reconcile f t ord inc cur).ledger := by
      rw [ledgerKeys]
      exact List.mem_map.2 ⟨e, he, rfl⟩
    have hchar := (mem_ledgerKeys_reconcile f t ord inc cur e.1).1 hkey
    have hall := hchar.2.1 (cur.get ⟨i, hi⟩) (List.get_mem cur i hi)
    rw [hcontra] at hall
    exact hall hm.symm

/-- C2 witness: concrete matched record. -/
theorem c2_match_updates_witness :
    "new" ∈ ((reconcile false [] []
      [ReconHost.mk "10.0.0.5" "new"]
      [LairHost.mk "10.0.0.5" 0 false "" "" "" "" "" [] ["old"]]
      ).outHosts.get ⟨0, by decide⟩).hostnames := by
  have h := c2_match_updates false [] []
    [ReconHost.mk "10.0.0.5" "new"]
    [LairHost.mk "10.0.0.5" 0 false "" "" "" "" "" [] ["old"]]
    0 0 (by decide) (by decide) (by decide) (by decide) (by decide)
  exact h.2.1

/-- C3 counterexample: with configured tags ["scan"], force-unmatched
    enabled and one unmatched incoming address, the emitted project
    contains a (synthesized) host whose tag list is empty, not the
    configured list; so not every host entity in the emitted project
    carries the configured tag list. -/
theorem c3_counterexample :
    ledgerKeys (reconcile true ["scan"] ["10.0.0.9"]
        [ReconHost.mk "10.0.0.9" "orphan"] []).ledger = ["10.0.0.9"] ∧
    ∃ h ∈ (reconcile true ["scan"] ["10.0.0.9"]
        [ReconHost.mk "10.0.0.9" "orphan"] []).outHosts,
      h.tags ≠ ["scan"] := by decide

/-- C3 amended: every host copied from the current snapshot carries
    exactly the configured tag list (applied once, never duplicated,
    prior remote tags replaced), while synthesized unmatched hosts
    carry an empty tag list. -/
theorem c3_tags_amended (f : Bool) (t ord : List String)
    (inc : List ReconHost) (cur : List LairHost) :
    (∀ i (hi : i < cur.length)
        (ho : i < (reconcile f t ord inc cur).outHosts.length),
      ((reconcile f t ord inc cur).outHosts.get ⟨i, ho⟩).tags = t) ∧
    (∀ j (ho : cur.length + j
        < (reconcile f t ord inc cur).outHosts.length),
      ((reconcile f t ord inc cur).outHosts.get
          ⟨cur.length + j, ho⟩).tags = []) := by
  constructor
  · intro i hi ho
    rw [reconcile_outHosts_get_lt f t ord inc cur i hi ho, copyHost_applyAll]
  · intro j ho
    cases f with
    | false =>
      exfalso
      have hl := reconcile_outHosts_length false t ord inc cur
      have ho2 := ho
      rw [hl] at ho2
      simp at ho2
    | true =>
      have hl := reconcile_outHosts_length true t ord inc cur
      have ho2 := ho
      rw [hl] at ho2
      simp at ho2
      have hj : j < ord.length := by omega
      rw [reconcile_outHosts_get_ge t ord inc cur j hj ho]
      rfl

/-- C3 amended witness: matched host gets exactly the configured tags. -/
theorem c3_tags_amended_witness :
    ((reconcile true ["scan"] ["10.0.0.9"]
      [ReconHost.mk "10.0.0.5" "new", ReconHost.mk "10.0.0.9" "orphan"]
      [LairHost.mk "10.0.0.5" 0 false "" "" "" "" "" ["oldtag"] ["old"]]
      ).outHosts.get ⟨0, by decide⟩).tags = ["scan"] := by
  have h := c3_tags_amended true ["scan"] ["10.0.0.9"]
    [ReconHost.mk "10.0.0.5" "new", ReconHost.mk "10.0.0.9" "orphan"]
    [LairHost.mk "10.0.0.5" 0 false "" "" "" "" "" ["oldtag"] ["old"]]
  exact h.1 0 (by decide) (by decide)

/-- C4 counterexample: force-unmatched is enabled and an incoming
    record carries address 10.0.0.5, yet that address is never
    synthesized, because it matched a current host: the ledger is empty
    and the output is exactly the one copied current host. -/
theorem c4_counterexample :
    (∃ r ∈ [ReconHost.mk "10.0.0.5" "x"], r.ipAddress = "10.0.0.5") ∧
    ledgerKeys (reconcile true [] []
        [ReconHost.mk "10.0.0.5" "x"]
        [LairHost.mk "10.0.0.5" 0 false "" "" "" "" "" [] []]).ledger = [] ∧
    (reconcile true [] [] [ReconHost.mk "10.0.0.5" "x"]
        [LairHost.mk "10.0.0.5" 0 false "" "" "" "" "" [] []]
        ).outHosts.length = 1 := by decide

/-- C4 amended: when force-unmatched is enabled, exactly one host is
    synthesized per ledger entry, with IPv4 the ledger key, hostnames
    all of that key's incoming hostnames in arrival order, empty tags
    and zero-valued remaining attributes; an address is synthesized iff
    it is non-empty, matches no current host, and some incoming record
    carries it; with forcing disabled no host is added. -/
theorem c4_forced_hosts (t ord : List String)
    (inc : List ReconHost) (cur : List LairHost)
    (hord : List.Perm ord
      (ledgerKeys (reconcile true t ord inc cur).ledger)) :
    (∀ j (hj : j < ord.length)
        (ho : cur.length + j
          < (reconcile true t ord inc cur).outHosts.length),
      (reconcile true t ord inc cur).outHosts.get ⟨cur.length + j, ho⟩
        = forcedHost (reconcile true t ord inc cur).ledger
            (ord.get ⟨j, hj⟩)) ∧
    (∀ a ∈ ord,
      (forcedHost (reconcile true t ord inc cur).ledger a).ipv4 = a ∧
      (forcedHost (reconcile true t ord inc cur).ledger a).hostnames
        = matchedNames inc a ∧
      (forcedHost (reconcile true t ord inc cur).ledger a).tags = [] ∧
      (forcedHost (reconcile true t ord inc cur).ledger a).lastModifiedBy
        = "" ∧
      (forcedHost (reconcile true t ord inc cur).ledger a).mac = "" ∧
      (forcedHost (reconcile true t ord inc cur).ledger a).os = "" ∧
      (forcedHost (reconcile true t ord inc cur).ledger a).status = "" ∧
      (forcedHost (reconcile true t ord inc cur).ledger a).statusMessage
        = "" ∧
      (forcedHost (reconcile true t ord inc cur).ledger a).isFlagged
        = false ∧
      (forcedHost (reconcile true t ord inc cur).ledger a).longIPv4Addr
        = 0) ∧
    (∀ a, a ∈ ord ↔
      a ≠ "" ∧ (∀ h ∈ cur, h.ipv4 ≠ a) ∧ ∃ r ∈ inc, r.ipAddress = a) ∧
    (reconcile false t ord inc cur).outHosts.length = cur.length := by
  refine ⟨?_, ?_, ?_, ?_⟩
  · intro j hj ho
    exact reconcile_outHosts_get_ge t ord inc cur j hj ho
  · intro a ha
    have hmem : a ∈ ledgerKeys (reconcile true t ord inc cur).ledger :=
      (hord.mem_iff).1 ha
    refine ⟨rfl, ?_, rfl, rfl, rfl, rfl, rfl, rfl, rfl, rfl⟩
    show ledgerNames (reconcile true t ord inc cur).ledger a
      = matchedNames inc a
    exact ledgerNames_reconcile true t ord inc cur a hmem
  · intro a
    rw [hord.mem_iff]
    exact mem_ledgerKeys_reconcile true t ord inc cur a
  · rw [reconcile_outHosts_length]
    simp

/-- C4 amended witness: the forced host of the example scenario sits at
    position 1 of the output. -/
theorem c4_forced_hosts_witness :
    (reconcile true ["scan"] ["10.0.0.9"]
      [ReconHost.mk "10.0.0.5" "new", ReconHost.mk "10.0.0.9" "orphan"]
      [LairHost.mk "10.0.0.5" 0 false "" "" "" "" "" [] ["old"]]
      ).outHosts.get ⟨1, by decide⟩
    = forcedHost (reconcile true ["scan"] ["10.0.0.9"]
        [ReconHost.mk "10.0.0.5" "new", ReconHost.mk "10.0.0.9" "orphan"]
        [LairHost.mk "10.0.0.5" 0 false "" "" "" "" "" [] ["old"]]).ledger
        "10.0.0.9" := by
  have h := c4_forced_hosts ["scan"] ["10.0.0.9"]
    [ReconHost.mk "10.0.0.5" "new", ReconHost.mk "10.0.0.9" "orphan"]
    [LairHost.mk "10.0.0.5" 0 false "" "" "" "" "" [] ["old"]] (by decide)
  exact h.1 0 (by decide) (by decide)

/-- C5 counterexample: an incoming record whose address is the empty
    string matches a current host whose stored address is also empty —
    the hostname is appended and the marker set, so the record is
    neither ignored nor without effect on the output. -/
theorem c5_counterexample :
    ((reconcile false [] [] [ReconHost.mk "" "x"]
        [LairHost.mk "" 0 false "" "" "" "" "" [] []]).outHosts.get
        ⟨0, by decide⟩).hostnames = ["x"] ∧
    ((reconcile false [] [] [ReconHost.mk "" "x"]
        [LairHost.mk "" 0 false "" "" "" "" "" [] []]).outHosts.get
        ⟨0, by decide⟩).lastModifiedBy = tool := by decide

/-- C5 amended: an incoming record with an empty address is never added
    to the unmatched ledger, and, provided no current host has an empty
    stored address, dropping all empty-address records leaves the whole
    reconciliation result unchanged (they match nothing and have no
    effect); matching is plain string equality, so an empty incoming
    address does match a current host whose stored address is empty. -/
theorem c5_empty_address (f : Bool) (t ord : List String)
    (inc : List ReconHost) (cur : List LairHost)
    (hcur : ∀ h ∈ cur, h.ipv4 ≠ "") :
    reconcile f t ord inc cur
      = reconcile f t ord (inc.filter (fun r => !(r.ipAddress == ""))) cur ∧
    "" ∉ ledgerKeys (reconcile f t ord inc cur).ledger := by
  refine ⟨reconcile_filter_empty f t ord inc cur hcur, ?_⟩
  intro hmem
  exact ((mem_ledgerKeys_reconcile f t ord inc cur "").1 hmem).1 rfl

/-- C5 amended witness: with a non-empty-addressed current host, a run
    containing an empty-address record equals the run without it. -/
theorem c5_empty_address_witness :
    reconcile false [] [] [ReconHost.mk "" "x", ReconHost.mk "10.0.0.5" "y"]
        [LairHost.mk "10.0.0.5" 0 false "" "" "" "" "" [] []]
      = reconcile false [] []
          ([ReconHost.mk "" "x", ReconHost.mk "10.0.0.5" "y"].filter
            (fun r => !(r.ipAddress == "")))
          [LairHost.mk "10.0.0.5" 0 false "" "" "" "" "" [] []] := by
  have h := c5_empty_address false [] []
    [ReconHost.mk "" "x", ReconHost.mk "10.0.0.5" "y"]
    [LairHost.mk "10.0.0.5" 0 false "" "" "" "" "" [] []] (by decide)
  exact h.1

/-- C6: when an incoming record's address is shared by two (or more)
    current hosts, every such host's merged output entry receives the
    appended hostname, the tool marker and the configured tag list —
    the scan is not short-circuited after the first match. -/
theorem c6_shared_address (f : Bool) (t ord : List String)
    (inc : List ReconHost) (cur : List LairHost) (k i j : Nat)
    (hk : k < inc.length) (hi : i < cur.length) (hj : j < cur.length)
    (hij : i ≠ j)
    (hmi : (cur.get ⟨i, hi⟩).ipv4 = (inc.get ⟨k, hk⟩).ipAddress)
    (hmj : (cur.get ⟨j, hj⟩).ipv4 = (inc.get ⟨k, hk⟩).ipAddress)
    (hoi : i < (reconcile f t ord inc cur).outHosts.length)
    (hoj : j < (reconcile f t ord inc cur).outHosts.length) :
    (((reconcile f t ord inc cur).outHosts.get ⟨i, hoi⟩).hostnames
        = (cur.get ⟨i, hi⟩).hostnames
          ++ matchedNames inc (cur.get ⟨i, hi⟩).ipv4 ∧
      (inc.get ⟨k, hk⟩).name
        ∈ ((reconcile f t ord inc cur).outHosts.get ⟨i, hoi⟩).hostnames ∧
      ((reconcile f t ord inc cur).outHosts.get ⟨i, hoi⟩).lastModifiedBy
        = tool ∧
      ((reconcile f t ord inc cur).outHosts.get ⟨i, hoi⟩).tags = t) ∧
    (((reconcile f t ord inc cur).outHosts.get ⟨j, hoj⟩).hostnames
        = (cur.get ⟨j, hj⟩).hostnames
          ++ matchedNames inc (cur.get ⟨j, hj⟩).ipv4 ∧
      (inc.get ⟨k, hk⟩).name
        ∈ ((reconcile f t ord inc cur).outHosts.get ⟨j, hoj⟩).hostnames ∧
      ((reconcile f t ord inc cur).outHosts.get ⟨j, hoj⟩).lastModifiedBy
        = tool ∧
      ((reconcile f t ord inc cur).outHosts.get ⟨j, hoj⟩).tags = t) := by
  have key : ∀ (i2 : Nat) (hi2 : i2 < cur.length)
      (ho2 : i2 < (reconcile f t ord inc cur).outHosts.length),
      (cur.get ⟨i2, hi2⟩).ipv4 = (inc.get ⟨k, hk⟩).ipAddress →
      ((reconcile f t ord inc cur).outHosts.get ⟨i2, ho2⟩).hostnames
          = (cur.get ⟨i2, hi2⟩).hostnames
            ++ matchedNames inc (cur.get ⟨i2, hi2⟩).ipv4 ∧
      (inc.get ⟨k, hk⟩).name
          ∈ ((reconcile f t ord inc cur).outHosts.get ⟨i2, ho2⟩).hostnames ∧
      ((reconcile f t ord inc cur).outHosts.get ⟨i2, ho2⟩).lastModifiedBy
          = tool ∧
      ((reconcile f t ord inc cur).outHosts.get ⟨i2, ho2⟩).tags = t := by
    intro i2 hi2 ho2 hm2
    have hfound : addrFound inc (cur.get ⟨i2, hi2⟩).ipv4 = true := by
      rw [addrFound, List.any_eq_true]
      refine ⟨inc.get ⟨k, hk⟩, List.get_mem inc k hk, ?_⟩
      rw [hm2]
      simp
    rw [reconcile_outHosts_get_lt f t ord inc cur i2 hi2 ho2,
      copyHost_applyAll]
    refine ⟨rfl, ?_, ?_, rfl⟩
    · show (inc.get ⟨k, hk⟩).name
          ∈ (cur.get ⟨i2, hi2⟩).hostnames
            ++ matchedNames inc (cur.get ⟨i2, hi2⟩).ipv4
      apply List.mem_append_right
      rw [matchedNames]
      apply List.mem_map.2
      refine ⟨inc.get ⟨k, hk⟩,
        List.mem_filter.2 ⟨List.get_mem inc k hk, ?_⟩, rfl⟩
      rw [hm2]
      simp
    · show (if addrFound inc (cur.get ⟨i2, hi2⟩).ipv4 then tool
          else (cur.get ⟨i2, hi2⟩).lastModifiedBy) = tool
      rw [hfound]
      rfl
  exact ⟨key i hi hoi hmi, key j hj hoj hmj⟩

/-- C6 witness: one record, two current hosts with the same address,
    the second one also receives the hostname. -/
theorem c6_shared_address_witness :
    "dup" ∈ ((reconcile false ["s"] []
      [ReconHost.mk "10.0.0.7" "dup"]
      [LairHost.mk "10.0.0.7" 0 false "" "" "" "" "" [] [],
       LairHost.mk "10.0.0.7" 0 false "" "" "" "" "" [] []]).outHosts.get
      ⟨1, by decide⟩).hostnames := by
  have h := c6_shared_address false ["s"] []
    [ReconHost.mk "10.0.0.7" "dup"]
    [LairHost.mk "10.0.0.7" 0 false "" "" "" "" "" [] [],
     LairHost.mk "10.0.0.7" 0 false "" "" "" "" "" [] []]
    0 0 1 (by decide) (by decide) (by decide) (by decide) (by decide)
    (by decide) (by decide) (by decide)
  exact h.2.2.1

/-- C7 counterexample: with force-unmatched enabled and two distinct
    unmatched addresses, two runs on identical inputs whose ledger-map
    iteration orders differ (both being permutations of the ledger's
    keys, as Go map ranging guarantees) produce different merged host
    lists; the synthesized-host order is not determined by the inputs. -/
theorem c7_counterexample :
    List.Perm ["a", "b"] (ledgerKeys (reconcile true [] ["a", "b"]
      [ReconHost.mk "a" "h1", ReconHost.mk "b" "h2"] []).ledger) ∧
    List.Perm ["b", "a"] (ledgerKeys (reconcile true [] ["b", "a"]
      [ReconHost.mk "a" "h1", ReconHost.mk "b" "h2"] []).ledger) ∧
    (reconcile true [] ["a", "b"]
        [ReconHost.mk "a" "h1", ReconHost.mk "b" "h2"] []).outHosts
      ≠ (reconcile true [] ["b", "a"]
        [ReconHost.mk "a" "h1", ReconHost.mk "b" "h2"] []).outHosts := by
  decide

/-- C7 amended: the pass is a pure function of its inputs plus the
    ledger iteration order: the snapshot, the ledger and the copied
    segment of the output are independent of that order, and for any
    two iteration orders that are permutations of one another the full
    merged host lists are permutations of one another. -/
theorem c7_determinism (f : Bool) (t ord1 ord2 : List String)
    (inc : List ReconHost) (cur : List LairHost)
    (hperm : List.Perm ord1 ord2) :
    List.Perm (reconcile f t ord1 inc cur).outHosts
      (reconcile f t ord2 inc cur).outHosts ∧
    (reconcile f t ord1 inc cur).ledger
      = (reconcile f t ord2 inc cur).ledger ∧
    (reconcile f t ord1 inc cur).snapshotHosts
      = (reconcile f t ord2 inc cur).snapshotHosts ∧
    (reconcile f t ord1 inc cur).outHosts.take cur.length
      = (reconcile f t ord2 inc cur).outHosts.take cur.length := by
  have hled : (reconcile f t ord1 inc cur).ledger
      = (reconcile f t ord2 inc cur).ledger := rfl
  have hsnap : (reconcile f t ord1 inc cur).snapshotHosts
      = (reconcile f t ord2 inc cur).snapshotHosts := rfl
  refine ⟨?_, hled, hsnap, ?_⟩
  · rw [reconcile_outHosts f t ord1 inc cur,
      reconcile_outHosts f t ord2 inc cur]
    apply List.Perm.append_left
    rw [← hled]
    cases f
    · simp
    · simp only [if_true]
      exact hperm.map (forcedHost (reconcile true t ord1 inc cur).ledger)
  · rw [reconcile_outHosts f t ord1 inc cur,
      reconcile_outHosts f t ord2 inc cur,
      List.take_left' (by simp), List.take_left' (by simp)]

/-- C7 amended witness. -/
theorem c7_determinism_witness :
    List.Perm (reconcile true [] ["a", "b"]
      [ReconHost.mk "a" "h1", ReconHost.mk "b" "h2"] []).outHosts
      (reconcile true [] ["b", "a"]
        [ReconHost.mk "a" "h1", ReconHost.mk "b" "h2"] []).outHosts := by
  have h := c7_determinism true [] ["a", "b"] ["b", "a"]
    [ReconHost.mk "a" "h1", ReconHost.mk "b" "h2"] [] (by decide)
  exact h.1

/-- C8 counterexample: after the pass the exported snapshot's host list
    is not the one the export returned — the matched host entity was
    mutated in place (hostname appended, marker set). -/
theorem c8_counterexample :
    (reconcile false [] [] [ReconHost.mk "10.0.0.5" "new"]
      [LairHost.mk "10.0.0.5" 0 false "" "" "" "" "" [] ["old"]]
      ).snapshotHosts
      ≠ [LairHost.mk "10.0.0.5" 0 false "" "" "" "" "" [] ["old"]] := by
  decide

/-- C8 amended: the pass mutates the exported snapshot in place at
    matched entries (hostnames extended by the matching records'
    hostnames in order, last-modified-by set to the tool identifier),
    while entries whose address matches no incoming record are left
    unchanged; the emitted output host list is a separately built
    structure. -/
theorem c8_snapshot_mutation (f : Bool) (t ord : List String)
    (inc : List ReconHost) (cur : List LairHost) (i : Nat)
    (hi : i < cur.length)
    (hs : i < (reconcile f t ord inc cur).snapshotHosts.length) :
    (addrFound inc (cur.get ⟨i, hi⟩).ipv4 = false →
      (reconcile f t ord inc cur).snapshotHosts.get ⟨i, hs⟩
        = cur.get ⟨i, hi⟩) ∧
    ((reconcile f t ord inc cur).snapshotHosts.get ⟨i, hs⟩).hostnames
      = (cur.get ⟨i, hi⟩).hostnames
        ++ matchedNames inc (cur.get ⟨i, hi⟩).ipv4 ∧
    (addrFound inc (cur.get ⟨i, hi⟩).ipv4 = true →
      ((reconcile f t ord inc cur).snapshotHosts.get
          ⟨i, hs⟩).lastModifiedBy = tool) := by
  refine ⟨reconcile_snapshot_frame f t ord inc cur i hi hs,
    reconcile_snapshot_hostnames f t ord inc cur i hi hs, ?_⟩
  intro hf
  rw [reconcile_snapshot_lmb f t ord inc cur i hi hs, hf]
  rfl

/-- C8 amended witness: the matched snapshot entry gains the hostname. -/
theorem c8_snapshot_mutation_witness :
    ((reconcile false [] [] [ReconHost.mk "10.0.0.5" "new"]
      [LairHost.mk "10.0.0.5" 0 false "" "" "" "" "" [] ["old"]]
      ).snapshotHosts.get ⟨0, by decide⟩).hostnames = ["old", "new"] := by
  have h := c8_snapshot_mutation false [] []
    [ReconHost.mk "10.0.0.5" "new"]
    [LairHost.mk "10.0.0.5" 0 false "" "" "" "" "" [] ["old"]] 0
    (by decide) (by decide)
  exact h.2.1

/-- C9: the netblock and contact mappers are total 1:1 transforms,
    emitting exactly one entity per input record with the fields copied
    as the code does (including empty strings for empty inputs): one
    NetBlock per netblock record with the target project identifier,
    CIDR, handle and email text, and one Person per contact record
    with the snapshot project identifier, principal name and
    one-element email list from the email field, names copied, address
    from region, department from title. -/
theorem c9_mappers (lairPID expID : String) (f : Bool) (t ord : List String)
    (recHosts : List ReconHost) (nbs : List ReconNetBlock)
    (cts : List ReconContact) (cur : List LairHost) :
    (buildProject lairPID expID f t ord recHosts nbs cts cur
        ).netblocks.length = nbs.length ∧
    (buildProject lairPID expID f t ord recHosts nbs cts cur
        ).people.length = cts.length ∧
    (∀ i (h1 : i < nbs.length)
        (h2 : i < (buildProject lairPID expID f t ord recHosts nbs cts cur
          ).netblocks.length),
      (buildProject lairPID expID f t ord recHosts nbs cts cur
          ).netblocks.get ⟨i, h2⟩
        = { projectID := lairPID
            miscEmails := (nbs.get ⟨i, h1⟩).email
            cidr := (nbs.get ⟨i, h1⟩).netblock
            handle := (nbs.get ⟨i, h1⟩).orgHandle }) ∧
    (∀ i (h1 : i < cts.length)
        (h2 : i < (buildProject lairPID expID f t ord recHosts nbs cts cur
          ).people.length),
      (buildProject lairPID expID f t ord recHosts nbs cts cur
          ).people.get ⟨i, h2⟩
        = { projectID := expID
            principalName := (cts.get ⟨i, h1⟩).email
            firstName := (cts.get ⟨i, h1⟩).firstName
            middleName := (cts.get ⟨i, h1⟩).middleName
            lastName := (cts.get ⟨i, h1⟩).lastName
            emails := [(cts.get ⟨i, h1⟩).email]
            address := (cts.get ⟨i, h1⟩).region
            department := (cts.get ⟨i, h1⟩).title }) := by
  have hnb : (buildProject lairPID expID f t ord recHosts nbs cts cur
      ).netblocks = nbs.map (mapNetblock lairPID) := rfl
  have hpe : (buildProject lairPID expID f t ord recHosts nbs cts cur
      ).people = cts.map (mapContact expID) := rfl
  refine ⟨by rw [hnb]; simp, by rw [hpe]; simp, ?_, ?_⟩
  · intro i h1 h2
    rw [List.get_eq_getElem, List.getElem_of_eq hnb h2, List.getElem_map]
    rfl
  · intro i h1 h2
    rw [List.get_eq_getElem, List.getElem_of_eq hpe h2, List.getElem_map]
    rfl

/-- C9 witness: one netblock record with an empty email field maps to
    the expected entity. -/
theorem c9_mappers_witness :
    (buildProject "pid" "eid" false [] [] []
      [ReconNetBlock.mk "10.0.0.0/24" "ORG-1" ""]
      [ReconContact.mk "a@b" "fn" "mn" "ln" "rg" "ti"] []
      ).netblocks.get ⟨0, by decide⟩
      = { projectID := "pid", miscEmails := "", cidr := "10.0.0.0/24"
          handle := "ORG-1" } := by
  have h := c9_mappers "pid" "eid" false [] []
    [] [ReconNetBlock.mk "10.0.0.0/24" "ORG-1" ""]
    [ReconContact.mk "a@b" "fn" "mn" "ln" "rg" "ti"] []
  exact h.2.2.1 0 (by decide) (by decide)

/-- C10: every emitted Person carries the exported snapshot's project
    identifier while every emitted NetBlock (and the project itself)
    carries the target identifier supplied to the run; a person's
    identifier agrees with the target identifier precisely when the
    export returned the requested identifier. -/
theorem c10_project_ids (lairPID expID : String) (f : Bool)
    (t ord : List String) (recHosts : List ReconHost)
    (nbs : List ReconNetBlock) (cts : List ReconContact)
    (cur : List LairHost) :
    (∀ p ∈ (buildProject lairPID expID f t ord recHosts nbs cts cur).people,
      p.projectID = expID) ∧
    (∀ nb ∈ (buildProject lairPID expID f t ord recHosts nbs cts cur
        ).netblocks, nb.projectID = lairPID) ∧
    (buildProject lairPID expID f t ord recHosts nbs cts cur).id
      = lairPID ∧
    (∀ p ∈ (buildProject lairPID expID f t ord recHosts nbs cts cur).people,
      (p.projectID = lairPID ↔ expID = lairPID)) := by
  have hnb : (buildProject lairPID expID f t ord recHosts nbs cts cur
      ).netblocks = nbs.map (mapNetblock lairPID) := rfl
  have hpe : (buildProject lairPID expID f t ord recHosts nbs cts cur
      ).people = cts.map (mapContact expID) := rfl
  refine ⟨?_, ?_, rfl, ?_⟩
  · intro p hp
    rw [hpe] at hp
    obtain ⟨c, _, hc⟩ := List.mem_map.1 hp
    rw [← hc]
    rfl
  · intro nb hnbm
    rw [hnb] at hnbm
    obtain ⟨b, _, hb⟩ := List.mem_map.1 hnbm
    rw [← hb]
    rfl
  · intro p hp
    rw [hpe] at hp
    obtain ⟨c, _, hc⟩ := List.mem_map.1 hp
    rw [← hc]
    exact Iff.rfl

/-- C10 witness. -/
theorem c10_project_ids_witness :
    ∀ p ∈ (buildProject "pid" "eid" false [] [] [] []
      [ReconContact.mk "a@b" "" "" "" "" ""] []).people,
      p.projectID = "eid" := by
  have h := c10_project_ids "pid" "eid" false [] [] [] []
    [ReconContact.mk "a@b" "" "" "" "" ""] []
  exact h.1
